import Mathlib

/-!
Verification of the validation and formatting rule set of `src/Library.mjs`
(a small JavaScript form-utility library).  Every JavaScript function that the
claims touch is translated here as a computable Lean definition over `String`
(JavaScript strings are modelled as their lists of characters, `String.data`).
Each regular expression of the source is translated to an executable matcher;
the doc comment of each definition records the regex it embeds and the
reasoning that justifies the translation.
-/

namespace FormUtils

/-- Characters of the regex class `[A-Za-z0-9]` (ASCII alphanumeric). -/
def isAsciiAlnum (c : Char) : Bool :=
  ('a' ≤ c && c ≤ 'z') || ('A' ≤ c && c ≤ 'Z') || ('0' ≤ c && c ≤ '9')

/-- Characters of the regex class `\d` (the decimal digits `0`-`9`). -/
def isDigitChar (c : Char) : Bool := '0' ≤ c && c ≤ '9'

/-- Characters of the regex class `[a-z]`. -/
def isLowerChar (c : Char) : Bool := 'a' ≤ c && c ≤ 'z'

/-- Characters of the regex class `[A-Z]`. -/
def isUpperChar (c : Char) : Bool := 'A' ≤ c && c ≤ 'Z'

/-- JavaScript line terminators (LF, CR, LINE SEPARATOR, PARAGRAPH
SEPARATOR): exactly the characters the regex dot `.` does NOT match when the
`s` flag is absent, as in `/^.{6,20}$/` and `/(.)\1{2,}/` of the source. -/
def isLineTerm (c : Char) : Bool :=
  c == '\n' || c == '\r' || c == '\u2028' || c == '\u2029'

/-- The fixed alternation of `/(012|123|...|7890)/` in `checkPasswordStrength`
(src/Library.mjs line 166), entry for entry and in source order: nine 3-digit
runs, twenty-three 3-letter runs (the source skips `vwx`), seven 4-digit runs. -/
def seqTable : List (List Char) :=
  ["012".data, "123".data, "234".data, "345".data, "456".data, "567".data,
   "678".data, "789".data, "890".data,
   "abc".data, "bcd".data, "cde".data, "def".data, "efg".data, "fgh".data,
   "ghi".data, "hij".data, "ijk".data, "jkl".data, "klm".data, "lmn".data,
   "mno".data, "nop".data, "opq".data, "pqr".data, "qrs".data, "rst".data,
   "stu".data, "tuv".data, "uvw".data, "wxy".data, "xyz".data,
   "1234".data, "2345".data, "3456".data, "4567".data, "5678".data,
   "6789".data, "7890".data]

/-- `sequentialPattern.test(password)`: the pattern is an unanchored
alternation of string literals, so the test succeeds iff some entry of the
table occurs as a contiguous substring of the password. -/
def hasSeqMatch (l : List Char) : Bool :=
  seqTable.any (fun t => decide (t <:+: l))

/-- `/(.)\1{2,}/.test(password)`: some character matched by the dot (hence not
a line terminator) occurs, immediately followed by at least two further copies
of itself; the test scans every start position, so it succeeds iff some
position carries a non-terminator character repeated three times in a row. -/
def hasRepeatRun : List Char → Bool
  | a :: b :: c :: rest =>
    (!isLineTerm a && a == b && b == c) || hasRepeatRun (b :: c :: rest)
  | _ => false

/-- `(password.match(/[^a-zA-Z0-9]/g) || []).length`: a global match against a
one-character class returns one match per non-alphanumeric character, so the
length is the count of such characters. -/
def specialCharCount (l : List Char) : Nat :=
  (l.filter (fun c => !isAsciiAlnum c)).length

/-- `/(?=.*\d)/.test(password)`: the test tries the lookahead at every start
position; taking the position of a digit itself makes `.*` match empty, so
the test succeeds iff the password contains a digit anywhere. -/
def containsDigit (l : List Char) : Bool := l.any isDigitChar

/-- `/(?=.*[a-z])/.test(password)`: as for the digit lookahead, succeeds iff
the password contains a lowercase ASCII letter. -/
def containsLower (l : List Char) : Bool := l.any isLowerChar

/-- `/(?=.*[A-Z])/.test(password)`: succeeds iff the password contains an
uppercase ASCII letter. -/
def containsUpper (l : List Char) : Bool := l.any isUpperChar

/-- `/^.{6,20}$/.test(password)`: anchored at both ends without the `s` or `m`
flags, so the whole string must consist of 6 to 20 characters each matched by
the dot, i.e. none of them a line terminator. -/
def lengthSixToTwenty (l : List Char) : Bool :=
  l.all (fun c => !isLineTerm c) && decide (6 ≤ l.length) && decide (l.length ≤ 20)

/-- `checkPasswordStrength` (src/Library.mjs lines 158-198), check for check
in source order with the source's message strings. -/
def checkPasswordStrength (password : String) : String :=
  if specialCharCount password.data < 2 then
    "Password must include at least two special characters."
  else if hasSeqMatch password.data then
    "Password must not contain sequential characters or letters."
  else if hasRepeatRun password.data then
    "Password must not contain more than two repeating characters or numbers in a row."
  else if !containsDigit password.data then
    "Password must include at least one digit."
  else if !containsLower password.data then
    "Password must include at least one lowercase letter."
  else if !containsUpper password.data then
    "Password must include at least one uppercase letter."
  else if !lengthSixToTwenty password.data then
    "Password must be between 6 and 20 characters long."
  else ""

example : checkPasswordStrength "aB3!?xy" = "" := by decide
example : checkPasswordStrength "abc" = "Password must include at least two special characters." := by decide
example : checkPasswordStrength "abcd!!" = "Password must not contain sequential characters or letters." := by decide
example : checkPasswordStrength "aB1!\n!" = "Password must be between 6 and 20 characters long." := by decide

/-- Characters of the JavaScript regex class `\s`: space, tab, the line
terminators, vertical tab, form feed, NBSP, OGHAM SPACE MARK, the EN QUAD to
HAIR SPACE range, NARROW NBSP, MEDIUM MATHEMATICAL SPACE, IDEOGRAPHIC SPACE
and the BOM. -/
def isJsSpace (c : Char) : Bool :=
  c == ' ' || c == '\t' || c == '\n' || c == '\x0b' || c == '\x0c' || c == '\r'
  || c == '\u00a0' || c == '\u1680' || ('\u2000' ≤ c && c ≤ '\u200a')
  || c == '\u2028' || c == '\u2029' || c == '\u202f' || c == '\u205f'
  || c == '\u3000' || c == '\ufeff'

/-- Characters of the regex class `[^\s@]` used throughout `validateEmail`. -/
def emailClassChar (c : Char) : Bool := !isJsSpace c && c != '@'

/-- Matcher for `[^\s@]+\.[^\s@]+` against a WHOLE list: since `.` itself is a
class character, the pattern (with backtracking) consumes a full list `d` iff
every character of `d` is a class character and `d` has a dot that is neither
its first nor its last character.  This function decides the latter interior
condition alone (the class condition is checked separately at each use). -/
def hasInteriorDot : List Char → Bool
  | [] => false
  | [_] => false
  | _ :: c :: rest => (c == '.' && !rest.isEmpty) || hasInteriorDot (c :: rest)

/-- `/^[^\s@]+@[^\s@]+\.[^\s@]+$/.test(email)` (src/Library.mjs line 131):
the class `[^\s@]` cannot match `@`, so in any match of the anchored pattern
the leading `[^\s@]+` stops exactly at the first `@` of the string; the local
part is therefore `takeWhile (· ≠ '@')`, the `@` of the pattern is the first
`@`, and the remainder must consist of class characters with an interior dot. -/
def formatReTest (s : List Char) : Bool :=
  match s.dropWhile (fun c => c != '@') with
  | [] => false
  | _ :: domain =>
    let localPart := s.takeWhile (fun c => c != '@')
    !localPart.isEmpty && localPart.all emailClassChar
      && domain.all emailClassChar && hasInteriorDot domain

/-- The capture group of `email.match(/@([^\s@]+\.[^\s@]+)$/)` (src/Library.mjs
line 137): the pattern is anchored at the end only, so the match engine scans
for the leftmost `@` whose entire suffix consists of class characters with an
interior dot; the group then captures that whole suffix.  `none` models a
`null` match result. -/
def domainCapture : List Char → Option (List Char)
  | [] => none
  | c :: rest =>
    if c == '@' && rest.all emailClassChar && hasInteriorDot rest then some rest
    else domainCapture rest

/-- `String.prototype.split` with a one-character separator:
`"".split(x)` is `[""]`, and each separator occurrence opens a new part. -/
def jsSplit (sep : Char) : List Char → List (List Char)
  | [] => [[]]
  | c :: rest =>
    if c == sep then [] :: jsSplit sep rest
    else
      match jsSplit sep rest with
      | [] => [[c]]
      | p :: ps => (c :: p) :: ps

/-- `email.split('@')[0]`: everything before the first `@` (the whole string
when there is none). -/
def localPartOf (s : List Char) : List Char := s.takeWhile (fun c => c != '@')

/-- `validateEmail` (src/Library.mjs lines 124-151), check for check in source
order with the source's message strings; `!email` on a string is the empty
test. -/
def validateEmail (email : String) : String :=
  if email.data.isEmpty then
    "Email address cannot be empty."
  else if !formatReTest email.data then
    "Invalid email address format. Must be in format name@example.com"
  else if (match domainCapture email.data with
           | some g => decide ((jsSplit '.' g).length < 2)
           | none => false) then
    "Invalid domain in email address. Must include a valid domain."
  else if 64 < (localPartOf email.data).length then
    "Local part of the email address is too long. Must be 64 characters or fewer."
  else ""

example : validateEmail "" = "Email address cannot be empty." := by decide
example : validateEmail "name@example.com" = "" := by decide
example : validateEmail "a@b" = "Invalid email address format. Must be in format name@example.com" := by decide
example : validateEmail "a b@c.d" = "Invalid email address format. Must be in format name@example.com" := by decide

/-- `validateRequired`'s argument: the source tests `value === undefined`,
`value === null` and `value === ''`, so the model distinguishes the two
absent values from a string. -/
inductive JsValue where
  | undef : JsValue
  | nullv : JsValue
  | str : String → JsValue
deriving DecidableEq

/-- `validateRequired` (src/Library.mjs lines 205-211). -/
def validateRequired : JsValue → Bool
  | JsValue.undef => false
  | JsValue.nullv => false
  | JsValue.str s => if s = "" then false else true

/-- `validateDateFormat`'s regex piece `\d{n}`: consume exactly `n` digits,
returning the rest of the input, or fail. -/
def matchDigits : Nat → List Char → Option (List Char)
  | 0, l => some l
  | _ + 1, [] => none
  | n + 1, c :: rest => if isDigitChar c then matchDigits n rest else none

/-- A literal character of a regex: consume exactly that character. -/
def matchChar (x : Char) : List Char → Option (List Char)
  | [] => none
  | c :: rest => if c == x then some rest else none

/-- `/^\d{4}-\d{2}-\d{2}$/.test(date)` (src/Library.mjs lines 228-232),
as the sequential composition of the regex pieces anchored at both ends
(the end anchor is the final `some []`). -/
def validateDateFormat (date : String) : Bool :=
  match ((((matchDigits 4 date.data).bind (matchChar '-')).bind
      (matchDigits 2)).bind (matchChar '-')).bind (matchDigits 2) with
  | some [] => true
  | _ => false

example : validateDateFormat "2024-03-05" = true := by decide
example : validateDateFormat "24-3-5" = false := by decide

/-- `String.prototype.padStart(n, fill)` for a one-character fill: left-pad to
length `n` (a no-op on anything already long enough). -/
def padStartL (n : Nat) (fill : Char) (l : List Char) : List Char :=
  List.replicate (n - l.length) fill ++ l

/-- Decimal value of a digit string. -/
def digitsToNat (l : List Char) : Nat :=
  l.foldl (fun acc c => 10 * acc + (c.toNat - '0'.toNat)) 0

/-- `parseInt(s)` for the strings that reach it in `formatDate`: an all-digit
nonempty string parses as its decimal value; in general `parseInt` reads the
longest digit prefix, which is what is modelled. -/
def parseIntDigits (l : List Char) : Nat :=
  digitsToNat (l.takeWhile isDigitChar)

/-- `!isNaN(s)` for a string `s`, i.e. `Number(s)` is a number.  Every string
reaching the `isNaN` checks of `formatDate` has passed the `\d{4}-\d{2}-\d{2}`
shape test and so is a nonempty digit string, for which `Number` never yields
`NaN`; the model only needs to be faithful on those. -/
def jsStrIsNumeric (l : List Char) : Bool := !l.isEmpty && l.all isDigitChar

/-- `formatDate` (src/Library.mjs lines 281-303): shape test, destructuring
split on `-`, `padStart`, the `isNaN`/range checks in source order, and the
template-literal reassembly.  `getD i []` models the destructuring (the
shape guard guarantees exactly three parts). -/
def formatDate (date : String) : String :=
  if validateDateFormat date = false then
    "Invalid date format. Use YYYY-MM-DD."
  else
    let parts := jsSplit '-' date.data
    let year := padStartL 4 '0' (parts.getD 0 [])
    let month := padStartL 2 '0' (parts.getD 1 [])
    let day := padStartL 2 '0' (parts.getD 2 [])
    if jsStrIsNumeric year = false ∨ jsStrIsNumeric month = false
        ∨ jsStrIsNumeric day = false
        ∨ parseIntDigits month < 1 ∨ 12 < parseIntDigits month
        ∨ parseIntDigits day < 1 ∨ 31 < parseIntDigits day then
      "Invalid date components. Please use a valid date."
    else
      String.mk (year ++ '-' :: (month ++ '-' :: day))

example : formatDate "2024-3-5" = "Invalid date format. Use YYYY-MM-DD." := by decide
example : formatDate "2024-13-05" = "Invalid date components. Please use a valid date." := by decide
example : formatDate "2024-03-05" = "2024-03-05" := by decide

/-- The pattern `(\d{3})(\d{3})(\d{4})` matches at the head of a list iff the
list starts with ten digits. -/
def tenDigitsAt (l : List Char) : Bool :=
  decide (10 ≤ l.length) && (l.take 10).all isDigitChar

/-- The replacement template `($1) $2-$3` applied to a ten-digit match `d`:
the groups are its first three, next three and last four digits. -/
def phoneFormatGroups (d : List Char) : List Char :=
  '(' :: d.take 3 ++ ')' :: ' ' :: ((d.drop 3).take 3 ++ '-' :: (d.drop 6).take 4)

/-- `number.replace(/(\d{3})(\d{3})(\d{4})/, '($1) $2-$3')` (src/Library.mjs
lines 263-265): a non-global replace rewrites only the leftmost match, i.e.
the first position where ten consecutive digits start, and leaves everything
else (including the rest of the string after the match) untouched; with no
match the string is returned unchanged. -/
def phoneReplace : List Char → List Char
  | [] => []
  | c :: rest =>
    if tenDigitsAt (c :: rest) then
      phoneFormatGroups ((c :: rest).take 10) ++ (c :: rest).drop 10
    else c :: phoneReplace rest

/-- `formatPhoneNumber` (src/Library.mjs lines 263-265). -/
def formatPhoneNumber (number : String) : String :=
  String.mk (phoneReplace number.data)

example : formatPhoneNumber "1234567890" = "(123) 456-7890" := by decide
example : formatPhoneNumber "12345" = "12345" := by decide
example : formatPhoneNumber "12345678901" = "(123) 456-78901" := by decide

/-- Characters of the regex class `\w`: ASCII alphanumerics and underscore. -/
def isWordChar (c : Char) : Bool := isAsciiAlnum c || c == '_'

/-- `char.toUpperCase()` for the characters `\w` can match: lowercase ASCII
letters map to uppercase, digits and underscore are unchanged. -/
def jsToUpperChar (c : Char) : Char :=
  if 'a' ≤ c && c ≤ 'z' then Char.ofNat (c.toNat - 32) else c

/-- `name.replace(/\b\w/g, char => char.toUpperCase())` (src/Library.mjs lines
272-274): `\b\w` matches every word character preceded by the start of the
string or a non-word character, and the global replace uppercases each such
match; all matches are found on the original string, so the state threaded
through the scan is whether the previous original character was a word
character. -/
def capList : Bool → List Char → List Char
  | _, [] => []
  | prevWord, c :: rest =>
    (if isWordChar c && !prevWord then jsToUpperChar c else c)
      :: capList (isWordChar c) rest

/-- `capitalizeName` (src/Library.mjs lines 272-274). -/
def capitalizeName (name : String) : String :=
  String.mk (capList false name.data)

example : capitalizeName "john doe" = "John Doe" := by decide
example : capitalizeName "foo-bar" = "Foo-Bar" := by decide
example : capitalizeName "1abc" = "1abc" := by decide

/-! ### The password rules of spec §4.2, stated independently of the code -/

/-- Rule 1 of §4.2: at least two characters outside `[A-Za-z0-9]`. -/
def pwRuleSpecials (p : String) : Prop :=
  2 ≤ List.countP (fun c => !isAsciiAlnum c) p.data

/-- Rule 2 of §4.2: no entry of the fixed sequence table occurs as a
substring. -/
def pwRuleNoSeq (p : String) : Prop :=
  ¬ ∃ t ∈ seqTable, t <:+: p.data

/-- Rule 3 of §4.2 as the code enforces it: no character OTHER THAN a line
terminator is repeated three or more times consecutively (the amendment the
code forces on the literal rule 3). -/
def pwRuleNoTriple (p : String) : Prop :=
  ¬ ∃ (pre : List Char) (c : Char) (post : List Char),
      p.data = pre ++ c :: c :: c :: post ∧ isLineTerm c = false

/-- Rule 4 of §4.2: at least one digit. -/
def pwRuleHasDigit (p : String) : Prop := ∃ c ∈ p.data, isDigitChar c = true

/-- Rule 5 of §4.2: at least one lowercase letter. -/
def pwRuleHasLower (p : String) : Prop := ∃ c ∈ p.data, isLowerChar c = true

/-- Rule 6 of §4.2: at least one uppercase letter. -/
def pwRuleHasUpper (p : String) : Prop := ∃ c ∈ p.data, isUpperChar c = true

/-- Rule 7 of §4.2 as the code enforces it: length 6 to 20 AND no line
terminator anywhere (the amendment the code forces on the literal rule 7). -/
def pwRuleLength (p : String) : Prop :=
  6 ≤ p.data.length ∧ p.data.length ≤ 20 ∧ ∀ c ∈ p.data, isLineTerm c = false

/-- All seven rules of §4.2, with rules 3 and 7 in the amended reading that
the code's dot-based regexes enforce. -/
def pwValidAmended (p : String) : Prop :=
  pwRuleSpecials p ∧ pwRuleNoSeq p ∧ pwRuleNoTriple p ∧ pwRuleHasDigit p
    ∧ pwRuleHasLower p ∧ pwRuleHasUpper p ∧ pwRuleLength p

/-- Literal rule 3 of §4.2 (any character, line terminators included,
repeated three or more times in a row). -/
def pwHasTripleLiteral : List Char → Bool
  | a :: b :: c :: rest => (a == b && b == c) || pwHasTripleLiteral (b :: c :: rest)
  | _ => false

/-- The seven rules of §4.2 exactly as the claim lists them (rule 3 about any
repeated character, rule 7 about the length alone), as an executable test. -/
def satisfiesSevenRulesLiteral (p : String) : Bool :=
  decide (2 ≤ specialCharCount p.data) && !hasSeqMatch p.data
    && !pwHasTripleLiteral p.data && containsDigit p.data && containsLower p.data
    && containsUpper p.data && decide (6 ≤ p.data.length) && decide (p.data.length ≤ 20)

/-! ### Bridging lemmas between the regex translations and the rules -/

theorem specialCharCount_eq_countP (l : List Char) :
    specialCharCount l = List.countP (fun c => !isAsciiAlnum c) l :=
  (List.countP_eq_length_filter _ _).symm

theorem hasSeqMatch_iff (l : List Char) :
    hasSeqMatch l = true ↔ ∃ t ∈ seqTable, t <:+: l := by
  simp [hasSeqMatch, List.any_eq_true]

theorem hasRepeatRun_cons (x : Char) (l : List Char) (h : hasRepeatRun l = true) :
    hasRepeatRun (x :: l) = true := by
  match l with
  | [] => simp [hasRepeatRun] at h
  | [a] => simp [hasRepeatRun] at h
  | a :: b :: rest => simp [hasRepeatRun, h]

theorem hasRepeatRun_of_decomp (pre : List Char) (c : Char) (post : List Char)
    (h : isLineTerm c = false) :
    hasRepeatRun (pre ++ c :: c :: c :: post) = true := by
  induction pre with
  | nil => simp [hasRepeatRun, h]
  | cons a t ih => exact hasRepeatRun_cons a _ ih

theorem exists_of_hasRepeatRun (l : List Char) (h : hasRepeatRun l = true) :
    ∃ (pre : List Char) (c : Char) (post : List Char),
      l = pre ++ c :: c :: c :: post ∧ isLineTerm c = false := by
  induction l with
  | nil => simp [hasRepeatRun] at h
  | cons a tail ih =>
    cases tail with
    | nil => simp [hasRepeatRun] at h
    | cons b t2 =>
      cases t2 with
      | nil => simp [hasRepeatRun] at h
      | cons c t3 =>
        rw [hasRepeatRun, Bool.or_eq_true] at h
        rcases h with hcond | hrec
        · simp only [Bool.and_eq_true, Bool.not_eq_true', beq_iff_eq] at hcond
          obtain ⟨⟨hlt, hab⟩, hbc⟩ := hcond
          subst hab; subst hbc
          exact ⟨[], a, t3, rfl, hlt⟩
        · obtain ⟨pre, c0, post, heq, hlt⟩ := ih hrec
          exact ⟨a :: pre, c0, post, by rw [heq, List.cons_append], hlt⟩

theorem hasRepeatRun_iff (l : List Char) :
    hasRepeatRun l = true ↔
      ∃ (pre : List Char) (c : Char) (post : List Char),
        l = pre ++ c :: c :: c :: post ∧ isLineTerm c = false := by
  refine ⟨exists_of_hasRepeatRun l, ?_⟩
  rintro ⟨pre, c, post, heq, hlt⟩
  rw [heq]
  exact hasRepeatRun_of_decomp pre c post hlt

theorem lengthSixToTwenty_iff (l : List Char) :
    lengthSixToTwenty l = true ↔
      (6 ≤ l.length ∧ l.length ≤ 20 ∧ ∀ c ∈ l, isLineTerm c = false) := by
  simp [lengthSixToTwenty, List.all_eq_true]
  tauto

/-- The success case of `checkPasswordStrength`, check for check. -/
theorem checkPasswordStrength_eq_empty_iff (p : String) :
    checkPasswordStrength p = "" ↔
      (¬ specialCharCount p.data < 2 ∧ hasSeqMatch p.data = false
        ∧ hasRepeatRun p.data = false ∧ containsDigit p.data = true
        ∧ containsLower p.data = true ∧ containsUpper p.data = true
        ∧ lengthSixToTwenty p.data = true) := by
  constructor
  · intro h
    simp only [checkPasswordStrength] at h
    split at h
    · exact absurd h (by decide)
    · split at h
      · exact absurd h (by decide)
      · split at h
        · exact absurd h (by decide)
        · split at h
          · exact absurd h (by decide)
          · split at h
            · exact absurd h (by decide)
            · split at h
              · exact absurd h (by decide)
              · split at h
                · exact absurd h (by decide)
                · rename_i h1 h2 h3 h4 h5 h6 h7
                  refine ⟨h1, ?_, ?_, ?_, ?_, ?_, ?_⟩ <;> simp_all
  · rintro ⟨h1, h2, h3, h4, h5, h6, h7⟩
    simp [checkPasswordStrength, h1, h2, h3, h4, h5, h6, h7]

theorem eq_true_of_false_iff {b : Bool} {P : Prop} (f : b = false ↔ P) (h : ¬ P) :
    b = true := by
  cases hx : b with
  | true => rfl
  | false => exact absurd (f.mp hx) h

theorem eq_false_of_true_iff {b : Bool} {P : Prop} (f : b = true ↔ P) (h : ¬ P) :
    b = false := by
  cases hx : b with
  | false => rfl
  | true => exact absurd (f.mp hx) h

theorem pw_f1 (p : String) : ¬ specialCharCount p.data < 2 ↔ pwRuleSpecials p := by
  unfold pwRuleSpecials
  rw [specialCharCount_eq_countP]
  omega

theorem pw_f2 (p : String) : hasSeqMatch p.data = false ↔ pwRuleNoSeq p := by
  unfold pwRuleNoSeq
  rw [← hasSeqMatch_iff]
  exact ⟨fun h => by simp [h], fun h => by simpa using h⟩

theorem pw_f3 (p : String) : hasRepeatRun p.data = false ↔ pwRuleNoTriple p := by
  unfold pwRuleNoTriple
  rw [← hasRepeatRun_iff]
  exact ⟨fun h => by simp [h], fun h => by simpa using h⟩

theorem pw_f4 (p : String) : containsDigit p.data = true ↔ pwRuleHasDigit p := by
  unfold pwRuleHasDigit
  simp [containsDigit, List.any_eq_true]

theorem pw_f5 (p : String) : containsLower p.data = true ↔ pwRuleHasLower p := by
  unfold pwRuleHasLower
  simp [containsLower, List.any_eq_true]

theorem pw_f6 (p : String) : containsUpper p.data = true ↔ pwRuleHasUpper p := by
  unfold pwRuleHasUpper
  simp [containsUpper, List.any_eq_true]

theorem pw_f7 (p : String) : lengthSixToTwenty p.data = true ↔ pwRuleLength p := by
  unfold pwRuleLength
  exact lengthSixToTwenty_iff p.data

/-- C1 (amended): `checkPasswordStrength p` is empty iff `p` satisfies the
seven rules of §4.2 with rules 3 and 7 in the reading the code's regex dots
enforce (rule 3: no character other than a line terminator repeated three or
more times in a row; rule 7: length 6 to 20 AND free of line terminators);
and when rules are violated the message returned is that of the first
violated rule in the listed priority order. -/
theorem c1_password_first_violation (p : String) :
    (checkPasswordStrength p = "" ↔ pwValidAmended p)
    ∧ (¬ pwRuleSpecials p →
        checkPasswordStrength p = "Password must include at least two special characters.")
    ∧ (pwRuleSpecials p → ¬ pwRuleNoSeq p →
        checkPasswordStrength p = "Password must not contain sequential characters or letters.")
    ∧ (pwRuleSpecials p → pwRuleNoSeq p → ¬ pwRuleNoTriple p →
        checkPasswordStrength p =
          "Password must not contain more than two repeating characters or numbers in a row.")
    ∧ (pwRuleSpecials p → pwRuleNoSeq p → pwRuleNoTriple p → ¬ pwRuleHasDigit p →
        checkPasswordStrength p = "Password must include at least one digit.")
    ∧ (pwRuleSpecials p → pwRuleNoSeq p → pwRuleNoTriple p → pwRuleHasDigit p →
        ¬ pwRuleHasLower p →
        checkPasswordStrength p = "Password must include at least one lowercase letter.")
    ∧ (pwRuleSpecials p → pwRuleNoSeq p → pwRuleNoTriple p → pwRuleHasDigit p →
        pwRuleHasLower p → ¬ pwRuleHasUpper p →
        checkPasswordStrength p = "Password must include at least one uppercase letter.")
    ∧ (pwRuleSpecials p → pwRuleNoSeq p → pwRuleNoTriple p → pwRuleHasDigit p →
        pwRuleHasLower p → pwRuleHasUpper p → ¬ pwRuleLength p →
        checkPasswordStrength p = "Password must be between 6 and 20 characters long.") := by
  refine ⟨?_, ?_, ?_, ?_, ?_, ?_, ?_, ?_⟩
  · rw [checkPasswordStrength_eq_empty_iff]
    unfold pwValidAmended
    rw [pw_f1, pw_f2, pw_f3, pw_f4, pw_f5, pw_f6, pw_f7]
  · intro h1
    have b1 : specialCharCount p.data < 2 := by
      by_contra hb
      exact h1 ((pw_f1 p).mp hb)
    simp [checkPasswordStrength, b1]
  · intro h1 h2
    have b1 := (pw_f1 p).mpr h1
    have b2 := eq_true_of_false_iff (pw_f2 p) h2
    simp [checkPasswordStrength, b1, b2]
  · intro h1 h2 h3
    have b1 := (pw_f1 p).mpr h1
    have b2 := (pw_f2 p).mpr h2
    have b3 := eq_true_of_false_iff (pw_f3 p) h3
    simp [checkPasswordStrength, b1, b2, b3]
  · intro h1 h2 h3 h4
    have b1 := (pw_f1 p).mpr h1
    have b2 := (pw_f2 p).mpr h2
    have b3 := (pw_f3 p).mpr h3
    have b4 := eq_false_of_true_iff (pw_f4 p) h4
    simp [checkPasswordStrength, b1, b2, b3, b4]
  · intro h1 h2 h3 h4 h5
    have b1 := (pw_f1 p).mpr h1
    have b2 := (pw_f2 p).mpr h2
    have b3 := (pw_f3 p).mpr h3
    have b4 := (pw_f4 p).mpr h4
    have b5 := eq_false_of_true_iff (pw_f5 p) h5
    simp [checkPasswordStrength, b1, b2, b3, b4, b5]
  · intro h1 h2 h3 h4 h5 h6
    have b1 := (pw_f1 p).mpr h1
    have b2 := (pw_f2 p).mpr h2
    have b3 := (pw_f3 p).mpr h3
    have b4 := (pw_f4 p).mpr h4
    have b5 := (pw_f5 p).mpr h5
    have b6 := eq_false_of_true_iff (pw_f6 p) h6
    simp [checkPasswordStrength, b1, b2, b3, b4, b5, b6]
  · intro h1 h2 h3 h4 h5 h6 h7
    have b1 := (pw_f1 p).mpr h1
    have b2 := (pw_f2 p).mpr h2
    have b3 := (pw_f3 p).mpr h3
    have b4 := (pw_f4 p).mpr h4
    have b5 := (pw_f5 p).mpr h5
    have b6 := (pw_f6 p).mpr h6
    have b7 := eq_false_of_true_iff (pw_f7 p) h7
    simp [checkPasswordStrength, b1, b2, b3, b4, b5, b6, b7]

/-- C1 (counterexample): the password `"aB1!\n!"` satisfies all seven rules
of §4.2 exactly as the claim states them (the newline counts as one of its
three special characters, no sequence-table entry, no character repeated
three times, a digit, a lowercase and an uppercase letter, length 6), yet
`checkPasswordStrength` does not return the empty string: the length regex
`/^.{6,20}$/` cannot match across the newline. -/
theorem c1_password_counterexample :
    satisfiesSevenRulesLiteral "aB1!\n!" = true
      ∧ checkPasswordStrength "aB1!\n!" ≠ "" := by decide

/-- C1 (witness): a fully concrete instance of the first-violation theorem. -/
theorem c1_password_witness :
    checkPasswordStrength "aaaaaa" = "Password must include at least two special characters." :=
  (c1_password_first_violation "aaaaaa").2.1 (by unfold pwRuleSpecials; decide)

/-- C3 (amended): the sequential-run rule is a literal substring match
against the fixed table, and the four-letter run `"abcd"` is itself not an
entry of the table; but every password containing `"abcd"` also contains the
table entries `"abc"` and `"bcd"`, so whenever such a password passes the
special-character rule, `checkPasswordStrength` DOES return the
sequential-characters message. -/
theorem c3_abcd_sequential :
    "abcd".data ∉ seqTable
    ∧ ∀ p : String, "abcd".data <:+: p.data → 2 ≤ specialCharCount p.data →
        checkPasswordStrength p =
          "Password must not contain sequential characters or letters." := by
  constructor
  · decide
  · intro p hinf hcount
    obtain ⟨s, t, hst⟩ := hinf
    have habc : "abc".data <:+: p.data := by
      refine ⟨s, 'd' :: t, ?_⟩
      rw [← hst]
      simp
    have hseq : hasSeqMatch p.data = true := by
      rw [hasSeqMatch_iff]
      exact ⟨"abc".data, by decide, habc⟩
    have h1 : ¬ specialCharCount p.data < 2 := by omega
    simp [checkPasswordStrength, h1, hseq]

/-- C3 (counterexample): `"abcd!!"` contains `"abcd"` and two special
characters, and `checkPasswordStrength` returns the sequential-characters
message for it, contradicting the claim that such a password is not flagged
by the sequential rule. -/
theorem c3_abcd_counterexample :
    "abcd".data <:+: "abcd!!".data
    ∧ 2 ≤ specialCharCount "abcd!!".data
    ∧ checkPasswordStrength "abcd!!" =
        "Password must not contain sequential characters or letters." := by decide

/-- C3 (witness): the amended theorem applied at the concrete password
`"abcd!?"`. -/
theorem c3_abcd_witness :
    checkPasswordStrength "abcd!?" =
      "Password must not contain sequential characters or letters." :=
  c3_abcd_sequential.2 "abcd!?" (by decide) (by decide)

/-- C10: every password containing a newline character is rejected: the
anchored length pattern `/^.{6,20}$/` can never match a string with a line
terminator, so `checkPasswordStrength` cannot reach its empty-string success
result. -/
theorem c10_newline_password_never_valid (p : String) (h : '\n' ∈ p.data) :
    checkPasswordStrength p ≠ "" := by
  intro hempty
  have hall := ((checkPasswordStrength_eq_empty_iff p).mp hempty).2.2.2.2.2.2
  have hlen := (lengthSixToTwenty_iff p.data).mp hall
  have hnl := hlen.2.2 '\n' h
  exact absurd hnl (by decide)

/-- C10 (witness): the concrete newline password `"xY9$\n$"`. -/
theorem c10_newline_witness : checkPasswordStrength "xY9$\n$" ≠ "" :=
  c10_newline_password_never_valid "xY9$\n$" (by decide)

/-! ### Email validation: characterizations of the two regexes -/

theorem dropWhile_head_false {α : Type} (p : α → Bool) :
    ∀ (l : List α) (c : α) (r : List α), List.dropWhile p l = c :: r → p c = false := by
  intro l
  induction l with
  | nil => intro c r h; simp [List.dropWhile] at h
  | cons a t ih =>
    intro c r h
    rw [List.dropWhile_cons] at h
    by_cases hp : p a = true
    · rw [if_pos hp] at h
      exact ih c r h
    · rw [if_neg hp] at h
      injection h with h1 h2
      subst h1
      simpa using hp

theorem takeWhile_dropWhile_append_cons {α : Type} (q : α → Bool) (x : α)
    (hx : q x = false) (L R : List α) (hL : ∀ c ∈ L, q c = true) :
    (L ++ x :: R).takeWhile q = L ∧ (L ++ x :: R).dropWhile q = x :: R := by
  induction L with
  | nil => simp [List.takeWhile_cons, List.dropWhile_cons, hx]
  | cons a t ih =>
    have ha : q a = true := hL a (List.mem_cons_self a t)
    have iht := ih (fun c hc => hL c (List.mem_cons_of_mem a hc))
    simp [List.takeWhile_cons, List.dropWhile_cons, ha, iht.1, iht.2]

theorem formatReTest_iff (s : List Char) :
    formatReTest s = true ↔
      ∃ L D : List Char, s = L ++ '@' :: D ∧ L ≠ []
        ∧ (∀ c ∈ L, emailClassChar c = true) ∧ (∀ c ∈ D, emailClassChar c = true)
        ∧ hasInteriorDot D = true := by
  constructor
  · intro h
    unfold formatReTest at h
    cases hd : s.dropWhile (fun c => c != '@') with
    | nil => rw [hd] at h; simp at h
    | cons c D =>
      rw [hd] at h
      have hc : ((fun c => c != '@') c) = false := dropWhile_head_false _ s c D hd
      have hcat : c = '@' := by simpa using hc
      subst hcat
      have hsplit := (List.takeWhile_append_dropWhile (fun c => c != '@') s).symm
      rw [hd] at hsplit
      simp only [List.all_eq_true, Bool.and_eq_true, Bool.not_eq_true',
        List.isEmpty_eq_false] at h
      obtain ⟨⟨⟨hne, hLall⟩, hDall⟩, hdot⟩ := h
      exact ⟨s.takeWhile (fun c => c != '@'), D, hsplit, hne, hLall, hDall, hdot⟩
  · rintro ⟨L, D, rfl, hLne, hLc, hDc, hdot⟩
    have hq : ∀ c ∈ L, ((fun c => c != '@') c) = true := by
      intro c hc
      have h2 := hLc c hc
      unfold emailClassChar at h2
      rw [Bool.and_eq_true] at h2
      exact h2.2
    obtain ⟨ht, hdw⟩ :=
      takeWhile_dropWhile_append_cons (fun c => c != '@') '@' (by decide) L D hq
    unfold formatReTest
    rw [hdw, ht]
    simp [List.all_eq_true, hdot, hLne]
    exact ⟨hLc, hDc⟩

theorem hasInteriorDot_of_decomp (D1 D2 : List Char) (h1 : D1 ≠ []) (h2 : D2 ≠ []) :
    hasInteriorDot (D1 ++ '.' :: D2) = true := by
  induction D1 with
  | nil => exact absurd rfl h1
  | cons a t ih =>
    cases t with
    | nil =>
      have hD2 : D2.isEmpty = false := List.isEmpty_eq_false.mpr h2
      simp [hasInteriorDot, hD2]
    | cons b t2 =>
      have iht := ih (by simp)
      simp only [List.cons_append] at iht ⊢
      rw [hasInteriorDot, iht]
      simp

theorem exists_of_hasInteriorDot :
    ∀ D : List Char, hasInteriorDot D = true →
      ∃ D1 D2 : List Char, D = D1 ++ '.' :: D2 ∧ D1 ≠ [] ∧ D2 ≠ [] := by
  intro D h
  induction D with
  | nil => simp [hasInteriorDot] at h
  | cons a tail ih =>
    cases tail with
    | nil => simp [hasInteriorDot] at h
    | cons c rest =>
      rw [hasInteriorDot, Bool.or_eq_true] at h
      rcases h with hc | hr
      · rw [Bool.and_eq_true] at hc
        have hceq : c = '.' := by simpa using hc.1
        have hne : rest ≠ [] := by
          have := hc.2
          simp only [Bool.not_eq_true', List.isEmpty_eq_false] at this
          exact this
        subst hceq
        exact ⟨[a], rest, rfl, by simp, hne⟩
      · obtain ⟨D1, D2, heq, h1, h2⟩ := ih hr
        exact ⟨a :: D1, D2, by rw [List.cons_append, ← heq], by simp, h2⟩

theorem hasInteriorDot_iff (D : List Char) :
    hasInteriorDot D = true ↔
      ∃ D1 D2 : List Char, D = D1 ++ '.' :: D2 ∧ D1 ≠ [] ∧ D2 ≠ [] := by
  refine ⟨exists_of_hasInteriorDot D, ?_⟩
  rintro ⟨D1, D2, rfl, h1, h2⟩
  exact hasInteriorDot_of_decomp D1 D2 h1 h2

theorem domainCapture_group_dot :
    ∀ s g : List Char, domainCapture s = some g → hasInteriorDot g = true := by
  intro s
  induction s with
  | nil => intro g h; simp [domainCapture] at h
  | cons c rest ih =>
    intro g h
    rw [domainCapture] at h
    by_cases hc : (c == '@' && rest.all emailClassChar && hasInteriorDot rest) = true
    · rw [if_pos hc] at h
      injection h with h2
      subst h2
      rw [Bool.and_eq_true] at hc
      exact hc.2
    · rw [if_neg hc] at h
      exact ih g h

theorem jsSplit_length_pos (sep : Char) : ∀ l : List Char, 1 ≤ (jsSplit sep l).length := by
  intro l
  induction l with
  | nil => simp [jsSplit]
  | cons c rest ih =>
    rw [jsSplit]
    by_cases hc : (c == sep) = true
    · rw [if_pos hc]; simp
    · rw [if_neg hc]
      cases hsp : jsSplit sep rest with
      | nil => simp
      | cons p ps => simp

theorem jsSplit_two_of_mem (sep : Char) :
    ∀ l : List Char, sep ∈ l → 2 ≤ (jsSplit sep l).length := by
  intro l
  induction l with
  | nil => intro h; simp at h
  | cons c rest ih =>
    intro h
    rw [jsSplit]
    by_cases hc : (c == sep) = true
    · rw [if_pos hc]
      have := jsSplit_length_pos sep rest
      simp
      omega
    · rw [if_neg hc]
      have hmem : sep ∈ rest := by
        rcases List.mem_cons.mp h with h1 | h2
        · refine absurd ?_ hc
          subst h1
          simp
        · exact h2
      have h2 := ih hmem
      cases hsp : jsSplit sep rest with
      | nil => rw [hsp] at h2; simp at h2
      | cons p ps =>
        rw [hsp] at h2
        simp at h2 ⊢
        omega

/-- The third check of `validateEmail` can never fire: a captured domain
group always contains an interior dot, so its dot-split always has at least
two parts. -/
theorem emailDomainBranchFalse (s : List Char) :
    (match domainCapture s with
     | some g => decide ((jsSplit '.' g).length < 2)
     | none => false) = false := by
  cases hd : domainCapture s with
  | none => rfl
  | some g =>
    have hdot := domainCapture_group_dot s g hd
    obtain ⟨D1, D2, heq, h1, h2⟩ := exists_of_hasInteriorDot g hdot
    have hmem : '.' ∈ g := by rw [heq]; simp
    have hlen := jsSplit_two_of_mem '.' g hmem
    simp only [decide_eq_false_iff_not]
    omega

/-- The claim's validity predicate for an email string, rendered precisely:
a nonempty local part free of whitespace and `@` of at most 64 characters,
one `@`, and a domain free of whitespace and `@` that splits at some dot
into two nonempty halves (i.e. has at least two dot-separated labels). -/
def emailSpecValid (s : List Char) : Prop :=
  ∃ L D : List Char, s = L ++ '@' :: D ∧ L ≠ []
    ∧ (∀ c ∈ L, emailClassChar c = true) ∧ L.length ≤ 64
    ∧ (∀ c ∈ D, emailClassChar c = true)
    ∧ ∃ D1 D2 : List Char, D = D1 ++ '.' :: D2 ∧ D1 ≠ [] ∧ D2 ≠ []

/-- The overall-format condition of the claim (check 2 of §4.1): as
`emailSpecValid` but without the local-part length bound. -/
def emailSpecFormat (s : List Char) : Prop :=
  ∃ L D : List Char, s = L ++ '@' :: D ∧ L ≠ []
    ∧ (∀ c ∈ L, emailClassChar c = true) ∧ (∀ c ∈ D, emailClassChar c = true)
    ∧ ∃ D1 D2 : List Char, D = D1 ++ '.' :: D2 ∧ D1 ≠ [] ∧ D2 ≠ []

theorem emailSpecFormat_iff (s : List Char) :
    formatReTest s = true ↔ emailSpecFormat s := by
  rw [formatReTest_iff]
  unfold emailSpecFormat
  constructor
  · rintro ⟨L, D, heq, hne, hLc, hDc, hdot⟩
    exact ⟨L, D, heq, hne, hLc, hDc, (hasInteriorDot_iff D).mp hdot⟩
  · rintro ⟨L, D, heq, hne, hLc, hDc, hdec⟩
    exact ⟨L, D, heq, hne, hLc, hDc, (hasInteriorDot_iff D).mpr hdec⟩

theorem localPartOf_append (L D : List Char) (hLc : ∀ c ∈ L, emailClassChar c = true) :
    localPartOf (L ++ '@' :: D) = L := by
  unfold localPartOf
  refine (takeWhile_dropWhile_append_cons (fun c => c != '@') '@' (by decide) L D ?_).1
  intro c hc
  have h2 := hLc c hc
  unfold emailClassChar at h2
  rw [Bool.and_eq_true] at h2
  exact h2.2

/-- C2: `validateEmail s` is empty iff `s` has a (nonempty) whitespace-free
local part of at most 64 characters, an `@`, and a whitespace-free domain
with at least two dot-separated labels; and each failure is reported by the
first failing check in the order empty input, overall format, domain shape,
local-part length (the domain-shape check never fails when the format check
has passed, so it never supplies the message). -/
theorem c2_email_validation (s : String) :
    (validateEmail s = "" ↔ emailSpecValid s.data)
    ∧ (s.data = [] → validateEmail s = "Email address cannot be empty.")
    ∧ (s.data ≠ [] → ¬ emailSpecFormat s.data →
        validateEmail s = "Invalid email address format. Must be in format name@example.com")
    ∧ (emailSpecFormat s.data → 64 < (localPartOf s.data).length →
        validateEmail s =
          "Local part of the email address is too long. Must be 64 characters or fewer.") := by
  have hdb := emailDomainBranchFalse s.data
  refine ⟨?_, ?_, ?_, ?_⟩
  · constructor
    · intro h
      simp only [validateEmail] at h
      split at h
      · exact absurd h (by decide)
      · split at h
        · exact absurd h (by decide)
        · split at h
          · exact absurd h (by decide)
          · split at h
            · exact absurd h (by decide)
            · rename_i he hf hd hl
              have hft : formatReTest s.data = true := by simpa using hf
              obtain ⟨L, D, heq, hne, hLc, hDc, hdot⟩ := (formatReTest_iff _).mp hft
              have hlp : localPartOf s.data = L := by
                rw [heq]
                exact localPartOf_append L D hLc
              rw [hlp] at hl
              have hL64 : L.length ≤ 64 := by omega
              exact ⟨L, D, heq, hne, hLc, hL64, hDc, (hasInteriorDot_iff D).mp hdot⟩
    · rintro ⟨L, D, heq, hne, hLc, hL64, hDc, hdec⟩
      have hft : formatReTest s.data = true :=
        (formatReTest_iff _).mpr
          ⟨L, D, heq, hne, hLc, hDc, (hasInteriorDot_iff D).mpr hdec⟩
      have hempty : s.data.isEmpty = false := by
        rw [heq]; cases L <;> simp
      have hlp : localPartOf s.data = L := by
        rw [heq]
        exact localPartOf_append L D hLc
      have hnl : ¬ 64 < (localPartOf s.data).length := by
        rw [hlp]
        omega
      simp [validateEmail, hempty, hft, hdb, hnl]
  · intro h
    simp [validateEmail, h]
  · intro hne hnf
    have hb : formatReTest s.data = false :=
      eq_false_of_true_iff (emailSpecFormat_iff s.data) hnf
    have hbe : s.data.isEmpty = false := List.isEmpty_eq_false.mpr hne
    simp [validateEmail, hbe, hb]
  · intro hf hlong
    have hft : formatReTest s.data = true := (emailSpecFormat_iff s.data).mpr hf
    have hbe : s.data.isEmpty = false := by
      obtain ⟨L, D, heq, hrest⟩ := hf
      rw [heq]; cases L <;> simp
    simp [validateEmail, hbe, hft, hdb, hlong]

/-- C9: `validateEmail` never returns the invalid-domain message: whenever
the overall-format regex passes, the captured domain group necessarily
contains an interior dot, so its dot-split has at least two parts and the
invalid-domain branch cannot fire; every failure is reported by one of the
other three messages. -/
theorem c9_invalid_domain_unreachable (s : String) :
    validateEmail s ≠ "Invalid domain in email address. Must include a valid domain." := by
  intro h
  simp only [validateEmail] at h
  split at h
  · exact absurd h (by decide)
  · split at h
    · exact absurd h (by decide)
    · split at h
      · rename_i hcond
        rw [emailDomainBranchFalse s.data] at hcond
        exact absurd hcond (by decide)
      · split at h
        · exact absurd h (by decide)
        · exact absurd h (by decide)

/-! ### Date format and date formatting -/

theorem matchChar_eq_some (x : Char) (l r : List Char) :
    matchChar x l = some r ↔ l = x :: r := by
  cases l with
  | nil => simp [matchChar]
  | cons c rest =>
    rw [matchChar]
    by_cases hc : (c == x) = true
    · rw [if_pos hc]
      have hce : c = x := by simpa using hc
      subst hce
      simp
    · rw [if_neg hc]
      have hce : c ≠ x := by simpa using hc
      simp [hce]

theorem matchDigits_eq_some :
    ∀ (n : Nat) (l r : List Char), matchDigits n l = some r ↔
      ∃ d : List Char, l = d ++ r ∧ d.length = n ∧ ∀ c ∈ d, isDigitChar c = true := by
  intro n
  induction n with
  | zero =>
    intro l r
    constructor
    · intro h
      have : l = r := by simpa [matchDigits] using h
      exact ⟨[], by simp [this], rfl, by simp⟩
    · rintro ⟨d, hl, hlen, hd⟩
      rw [List.length_eq_zero] at hlen
      subst hlen
      simpa [matchDigits] using hl
  | succ n ih =>
    intro l r
    cases l with
    | nil =>
      constructor
      · intro h
        simp [matchDigits] at h
      · rintro ⟨d, hl, hlen, hd⟩
        cases d with
        | nil => simp at hlen
        | cons a d2 => simp at hl
    | cons c rest =>
      rw [matchDigits]
      by_cases hc : isDigitChar c = true
      · rw [if_pos hc, ih]
        constructor
        · rintro ⟨d, hl, hlen, hd⟩
          refine ⟨c :: d, by rw [List.cons_append, hl], by simp [hlen], ?_⟩
          intro x hx
          rcases List.mem_cons.mp hx with h1 | h2
          · subst h1; exact hc
          · exact hd x h2
        · rintro ⟨d, hl, hlen, hd⟩
          cases d with
          | nil => simp at hlen
          | cons a d2 =>
            rw [List.cons_append] at hl
            injection hl with hl1 hl2
            subst hl1
            exact ⟨d2, hl2, by simpa using hlen,
              fun x hx => hd x (List.mem_cons_of_mem c hx)⟩
      · rw [if_neg hc]
        constructor
        · intro h; simp at h
        · rintro ⟨d, hl, hlen, hd⟩
          cases d with
          | nil => simp at hlen
          | cons a d2 =>
            rw [List.cons_append] at hl
            injection hl with hl1 hl2
            subst hl1
            exact absurd (hd c (List.mem_cons_self c d2)) hc

theorem validateDateFormat_iff (s : String) :
    validateDateFormat s = true ↔
      ∃ Y M D : List Char, s.data = Y ++ '-' :: (M ++ '-' :: D)
        ∧ Y.length = 4 ∧ M.length = 2 ∧ D.length = 2
        ∧ (∀ c ∈ Y, isDigitChar c = true) ∧ (∀ c ∈ M, isDigitChar c = true)
        ∧ (∀ c ∈ D, isDigitChar c = true) := by
  unfold validateDateFormat
  constructor
  · intro h
    cases h1 : matchDigits 4 s.data with
    | none => rw [h1] at h; simp at h
    | some r1 =>
      rw [h1] at h
      simp only [Option.some_bind] at h
      cases h2 : matchChar '-' r1 with
      | none => rw [h2] at h; simp at h
      | some r2 =>
        rw [h2] at h
        simp only [Option.some_bind] at h
        cases h3 : matchDigits 2 r2 with
        | none => rw [h3] at h; simp at h
        | some r3 =>
          rw [h3] at h
          simp only [Option.some_bind] at h
          cases h4 : matchChar '-' r3 with
          | none => rw [h4] at h; simp at h
          | some r4 =>
            rw [h4] at h
            simp only [Option.some_bind] at h
            cases h5 : matchDigits 2 r4 with
            | none => rw [h5] at h; simp at h
            | some r5 =>
              rw [h5] at h
              cases r5 with
              | cons a t => simp at h
              | nil =>
                obtain ⟨Y, hY, hY4, hYd⟩ := (matchDigits_eq_some 4 s.data r1).mp h1
                have hr1 : r1 = '-' :: r2 := (matchChar_eq_some '-' r1 r2).mp h2
                obtain ⟨M, hM, hM2, hMd⟩ := (matchDigits_eq_some 2 r2 r3).mp h3
                have hr3 : r3 = '-' :: r4 := (matchChar_eq_some '-' r3 r4).mp h4
                obtain ⟨D, hD, hD2, hDd⟩ := (matchDigits_eq_some 2 r4 []).mp h5
                rw [List.append_nil] at hD
                refine ⟨Y, M, D, ?_, hY4, hM2, hD2, hYd, hMd, hDd⟩
                rw [hY, hr1, hM, hr3, hD]
  · rintro ⟨Y, M, D, heq, hY4, hM2, hD2, hYd, hMd, hDd⟩
    have h1 : matchDigits 4 s.data = some ('-' :: (M ++ '-' :: D)) :=
      (matchDigits_eq_some 4 _ _).mpr ⟨Y, by rw [heq], hY4, hYd⟩
    have h3 : matchDigits 2 (M ++ '-' :: D) = some ('-' :: D) :=
      (matchDigits_eq_some 2 _ _).mpr ⟨M, rfl, hM2, hMd⟩
    have h5 : matchDigits 2 D = some [] :=
      (matchDigits_eq_some 2 _ _).mpr ⟨D, by simp, hD2, hDd⟩
    rw [h1]
    simp [matchChar, h3, h5]

theorem jsSplit_no_sep (sep : Char) :
    ∀ l : List Char, (∀ c ∈ l, (c == sep) = false) → jsSplit sep l = [l] := by
  intro l
  induction l with
  | nil => intro _; rfl
  | cons c rest ih =>
    intro h
    have hc := h c (List.mem_cons_self c rest)
    rw [jsSplit, if_neg (by simp [hc]),
      ih (fun x hx => h x (List.mem_cons_of_mem c hx))]

theorem jsSplit_append (sep : Char) :
    ∀ A R : List Char, (∀ c ∈ A, (c == sep) = false) →
      jsSplit sep (A ++ sep :: R) = A :: jsSplit sep R := by
  intro A
  induction A with
  | nil =>
    intro R h
    simp [jsSplit]
  | cons a t ih =>
    intro R h
    have ha := h a (List.mem_cons_self a t)
    rw [List.cons_append, jsSplit, if_neg (by simp [ha]),
      ih R (fun x hx => h x (List.mem_cons_of_mem a hx))]

theorem digit_bne_dash (c : Char) (h : isDigitChar c = true) : (c == '-') = false := by
  cases hb : (c == '-') with
  | false => rfl
  | true =>
    have hce : c = '-' := by simpa using hb
    subst hce
    exact absurd h (by decide)

theorem jsSplit_date_shape (Y M D : List Char)
    (hYd : ∀ c ∈ Y, isDigitChar c = true) (hMd : ∀ c ∈ M, isDigitChar c = true)
    (hDd : ∀ c ∈ D, isDigitChar c = true) :
    jsSplit '-' (Y ++ '-' :: (M ++ '-' :: D)) = [Y, M, D] := by
  rw [jsSplit_append '-' Y _ (fun c hc => digit_bne_dash c (hYd c hc)),
    jsSplit_append '-' M _ (fun c hc => digit_bne_dash c (hMd c hc)),
    jsSplit_no_sep '-' D (fun c hc => digit_bne_dash c (hDd c hc))]

theorem padStartL_of_length (n : Nat) (fill : Char) (l : List Char)
    (h : l.length = n) : padStartL n fill l = l := by
  unfold padStartL
  rw [h, Nat.sub_self]
  simp

theorem jsStrIsNumeric_of (l : List Char) (hne : l ≠ [])
    (hd : ∀ c ∈ l, isDigitChar c = true) : jsStrIsNumeric l = true := by
  unfold jsStrIsNumeric
  simp [List.isEmpty_eq_false.mpr hne, List.all_eq_true]
  exact hd

theorem mk_data_eq (s : String) : String.mk s.data = s := String.ext rfl

/-- Spec §4.6: the year component of a date string, the first part of the
hyphen split left-padded with zeros to 4 digits. -/
def yearComp (s : List Char) : List Char :=
  padStartL 4 '0' ((jsSplit '-' s).getD 0 [])

/-- Spec §4.6: the month component, second part of the hyphen split padded to
2 digits. -/
def monthComp (s : List Char) : List Char :=
  padStartL 2 '0' ((jsSplit '-' s).getD 1 [])

/-- Spec §4.6: the day component, third part of the hyphen split padded to
2 digits. -/
def dayComp (s : List Char) : List Char :=
  padStartL 2 '0' ((jsSplit '-' s).getD 2 [])

/-- Spec §4.6's invalid-components condition: some padded component is not
numeric, or the month is outside 1-12, or the day is outside 1-31. -/
def dateBadComponents (s : List Char) : Prop :=
  jsStrIsNumeric (yearComp s) = false ∨ jsStrIsNumeric (monthComp s) = false
    ∨ jsStrIsNumeric (dayComp s) = false
    ∨ parseIntDigits (monthComp s) < 1 ∨ 12 < parseIntDigits (monthComp s)
    ∨ parseIntDigits (dayComp s) < 1 ∨ 31 < parseIntDigits (dayComp s)

instance (s : List Char) : Decidable (dateBadComponents s) := by
  unfold dateBadComponents
  infer_instance

theorem formatDate_valid_parts (d : String) (h : validateDateFormat d = true) :
    ∃ Y M D : List Char, d.data = Y ++ '-' :: (M ++ '-' :: D)
      ∧ d.data.length = 10
      ∧ jsSplit '-' d.data = [Y, M, D]
      ∧ yearComp d.data = Y ∧ monthComp d.data = M ∧ dayComp d.data = D
      ∧ jsStrIsNumeric Y = true ∧ jsStrIsNumeric M = true
      ∧ jsStrIsNumeric D = true := by
  obtain ⟨Y, M, D, heq, hY4, hM2, hD2, hYd, hMd, hDd⟩ :=
    (validateDateFormat_iff d).mp h
  have hsplit : jsSplit '-' d.data = [Y, M, D] := by
    rw [heq]
    exact jsSplit_date_shape Y M D hYd hMd hDd
  have hYne : Y ≠ [] := by intro hx; rw [hx] at hY4; simp at hY4
  have hMne : M ≠ [] := by intro hx; rw [hx] at hM2; simp at hM2
  have hDne : D ≠ [] := by intro hx; rw [hx] at hD2; simp at hD2
  refine ⟨Y, M, D, heq, ?_, hsplit, ?_, ?_, ?_,
    jsStrIsNumeric_of Y hYne hYd, jsStrIsNumeric_of M hMne hMd,
    jsStrIsNumeric_of D hDne hDd⟩
  · rw [heq]
    simp only [List.length_append, List.length_cons]
    omega
  · unfold yearComp
    rw [hsplit]
    simp only [List.getD_cons_zero]
    exact padStartL_of_length 4 '0' Y hY4
  · unfold monthComp
    rw [hsplit]
    simp only [List.getD_cons_succ, List.getD_cons_zero]
    exact padStartL_of_length 2 '0' M hM2
  · unfold dayComp
    rw [hsplit]
    simp only [List.getD_cons_succ, List.getD_cons_zero]
    exact padStartL_of_length 2 '0' D hD2

theorem formatDate_eq_of_valid (d : String) (h : validateDateFormat d = true) :
    formatDate d =
      (if dateBadComponents d.data then
        "Invalid date components. Please use a valid date."
      else d) := by
  obtain ⟨Y, M, D, heq, hlen, hsplit, hyc, hmc, hdc, hny, hnm, hnd⟩ :=
    formatDate_valid_parts d h
  have hff : ¬ validateDateFormat d = false := by simp [h]
  have hyc2 : padStartL 4 '0' ((jsSplit '-' d.data).getD 0 []) = Y := hyc
  have hmc2 : padStartL 2 '0' ((jsSplit '-' d.data).getD 1 []) = M := hmc
  have hdc2 : padStartL 2 '0' ((jsSplit '-' d.data).getD 2 []) = D := hdc
  have hmk : String.mk (Y ++ '-' :: (M ++ '-' :: D)) = d := by
    rw [← heq]
  simp only [formatDate, if_neg hff, hyc2, hmc2, hdc2]
  unfold dateBadComponents
  simp only [hyc, hmc, hdc, hmk]

/-- C6: `formatDate` returns the invalid-format sentinel exactly when the
shape test fails; on a shape-valid input it returns the invalid-components
sentinel exactly when a padded component is non-numeric or the month or day
is out of range, and otherwise the reassembled padded date; in particular
`formatDate "2024-13-05"` yields the invalid-components message. -/
theorem c6_format_date (d : String) :
    (validateDateFormat d = false → formatDate d = "Invalid date format. Use YYYY-MM-DD.")
    ∧ (validateDateFormat d = true →
        (formatDate d = "Invalid date components. Please use a valid date." ↔
          dateBadComponents d.data))
    ∧ (validateDateFormat d = true → ¬ dateBadComponents d.data →
        formatDate d =
          String.mk (yearComp d.data ++ '-' :: (monthComp d.data ++ '-' :: dayComp d.data)))
    ∧ formatDate "2024-13-05" = "Invalid date components. Please use a valid date." := by
  refine ⟨?_, ?_, ?_, by decide⟩
  · intro h
    simp [formatDate, h]
  · intro h
    rw [formatDate_eq_of_valid d h]
    by_cases hb : dateBadComponents d.data
    · simp [hb]
    · simp only [if_neg hb]
      constructor
      · intro hEq
        obtain ⟨Y, M, D, heq, hlen, hrest⟩ := formatDate_valid_parts d h
        have h2 := congrArg (fun t : String => t.data.length) hEq
        simp only at h2
        rw [hlen] at h2
        exact absurd h2 (by decide)
      · intro hbad
        exact absurd hbad hb
  · intro h hnb
    rw [formatDate_eq_of_valid d h, if_neg hnb]
    obtain ⟨Y, M, D, heq, hlen, hsplit, hyc, hmc, hdc, hrest⟩ :=
      formatDate_valid_parts d h
    rw [hyc, hmc, hdc, ← heq, mk_data_eq]

/-- C7: `formatDate` is the identity on every string that passes the shape
validator and whose month is within 1-12 and day within 1-31; hence it is
idempotent there. -/
theorem c7_format_date_idempotent (d : String)
    (h : validateDateFormat d = true)
    (h1 : 1 ≤ parseIntDigits (monthComp d.data))
    (h2 : parseIntDigits (monthComp d.data) ≤ 12)
    (h3 : 1 ≤ parseIntDigits (dayComp d.data))
    (h4 : parseIntDigits (dayComp d.data) ≤ 31) :
    formatDate d = d ∧ formatDate (formatDate d) = formatDate d := by
  have hnb : ¬ dateBadComponents d.data := by
    obtain ⟨Y, M, D, heq, hlen, hsplit, hyc, hmc, hdc, hny, hnm, hnd⟩ :=
      formatDate_valid_parts d h
    rintro (hx | hx | hx | hx | hx | hx | hx)
    · rw [hyc, hny] at hx; exact absurd hx (by decide)
    · rw [hmc, hnm] at hx; exact absurd hx (by decide)
    · rw [hdc, hnd] at hx; exact absurd hx (by decide)
    · omega
    · omega
    · omega
    · omega
  have hfd : formatDate d = d := by
    rw [formatDate_eq_of_valid d h, if_neg hnb]
  exact ⟨hfd, by rw [hfd, hfd]⟩

/-- C7 (witness): idempotence at the concrete valid date `"2024-03-05"`. -/
theorem c7_format_date_witness :
    formatDate "2024-03-05" = "2024-03-05"
      ∧ formatDate (formatDate "2024-03-05") = formatDate "2024-03-05" :=
  c7_format_date_idempotent "2024-03-05" (by decide) (by decide) (by decide)
    (by decide) (by decide)

/-! ### Phone formatting -/

/-- Whether `(\d{3})(\d{3})(\d{4})` matches anywhere: ten consecutive digits
start at some position of the list. -/
def hasTenRun : List Char → Bool
  | [] => false
  | c :: rest => tenDigitsAt (c :: rest) || hasTenRun rest

theorem phoneReplace_no_run : ∀ l : List Char, hasTenRun l = false → phoneReplace l = l := by
  intro l
  induction l with
  | nil => intro _; rfl
  | cons c rest ih =>
    intro h
    rw [hasTenRun] at h
    have h1 : tenDigitsAt (c :: rest) = false := by
      cases hx : tenDigitsAt (c :: rest) with
      | false => rfl
      | true => rw [hx] at h; simp at h
    have h2 : hasTenRun rest = false := by
      rw [h1] at h
      simpa using h
    rw [phoneReplace, if_neg (by simp [h1]), ih h2]

theorem phoneReplace_leftmost :
    ∀ pre run post : List Char, run.length = 10 →
      (∀ c ∈ run, isDigitChar c = true) →
      (∀ i, i < pre.length → tenDigitsAt ((pre ++ (run ++ post)).drop i) = false) →
      phoneReplace (pre ++ (run ++ post)) = pre ++ (phoneFormatGroups run ++ post) := by
  intro pre
  induction pre with
  | nil =>
    intro run post hlen hdig hno
    simp only [List.nil_append]
    cases run with
    | nil => simp at hlen
    | cons r0 rtail =>
      have htake : ((r0 :: rtail) ++ post).take 10 = r0 :: rtail := by
        rw [← hlen]
        exact List.take_left _ _
      have hdrop : ((r0 :: rtail) ++ post).drop 10 = post := by
        rw [← hlen]
        exact List.drop_left _ _
      have hlen2 : 10 ≤ ((r0 :: rtail) ++ post).length := by
        rw [List.length_append, hlen]
        omega
      have hten : tenDigitsAt (r0 :: (rtail ++ post)) = true := by
        unfold tenDigitsAt
        rw [show r0 :: (rtail ++ post) = (r0 :: rtail) ++ post from rfl, htake,
          Bool.and_eq_true]
        exact ⟨decide_eq_true hlen2, List.all_eq_true.mpr hdig⟩
      rw [show (r0 :: rtail) ++ post = r0 :: (rtail ++ post) from rfl] at htake hdrop ⊢
      rw [phoneReplace, if_pos hten, htake, hdrop]
  | cons a t ih =>
    intro run post hlen hdig hno
    have h0 := hno 0 (by simp)
    simp only [List.drop_zero, List.cons_append] at h0
    rw [List.cons_append, phoneReplace, if_neg (by simp [h0]),
      ih run post hlen hdig ?_, List.cons_append]
    intro i hi
    have h2 := hno (i + 1) (by simp only [List.length_cons]; omega)
    simpa only [List.cons_append, List.drop_succ_cons] using h2

/-- C4: `formatPhoneNumber` leaves every input without a ten-digit run
unchanged, and rewrites the leftmost ten-digit run into the shape
`(XXX) XXX-XXXX` while leaving the surrounding text untouched; in particular
`"1234567890"` becomes `"(123) 456-7890"` and `"12345"` is unchanged. -/
theorem c4_phone_format :
    (∀ s : String, hasTenRun s.data = false → formatPhoneNumber s = s)
    ∧ (∀ pre run post : List Char, run.length = 10 →
        (∀ c ∈ run, isDigitChar c = true) →
        (∀ i, i < pre.length → tenDigitsAt ((pre ++ (run ++ post)).drop i) = false) →
        phoneReplace (pre ++ (run ++ post)) = pre ++ (phoneFormatGroups run ++ post))
    ∧ formatPhoneNumber "1234567890" = "(123) 456-7890"
    ∧ formatPhoneNumber "12345" = "12345" := by
  refine ⟨?_, phoneReplace_leftmost, by decide, by decide⟩
  intro s h
  unfold formatPhoneNumber
  rw [phoneReplace_no_run s.data h, mk_data_eq]

/-! ### Name capitalization -/

theorem capList_length (b : Bool) (l : List Char) : (capList b l).length = l.length := by
  induction l generalizing b with
  | nil => rfl
  | cons c rest ih => simp [capList, ih]

theorem capList_getD :
    ∀ (l : List Char) (b : Bool) (i : Nat), i < l.length →
      (capList b l).getD i ' ' =
        (if isWordChar (l.getD i ' ')
            && !(if i == 0 then b else isWordChar (l.getD (i - 1) ' '))
         then jsToUpperChar (l.getD i ' ') else l.getD i ' ') := by
  intro l
  induction l with
  | nil => intro b i hi; simp at hi
  | cons c rest ih =>
    intro b i hi
    cases i with
    | zero => simp [capList]
    | succ j =>
      have hj : j < rest.length := by
        simp only [List.length_cons] at hi
        omega
      rw [show capList b (c :: rest)
          = (if isWordChar c && !b then jsToUpperChar c else c)
            :: capList (isWordChar c) rest from rfl]
      rw [List.getD_cons_succ, ih (isWordChar c) j hj]
      cases j with
      | zero => simp
      | succ k => simp

/-- The boundary condition of `\b\w` at position `i`: a word character at `i`
preceded by the start of the string or a non-word character. -/
def wordStartAt (l : List Char) (i : Nat) : Bool :=
  isWordChar (l.getD i ' ') && (i == 0 || !isWordChar (l.getD (i - 1) ' '))

/-- C5 (amended): `capitalizeName` preserves the length, and each output
character is the input character, uppercased exactly when it is a word
character (`[A-Za-z0-9_]`) standing at the start of the string or right
after a NON-WORD character (not merely after whitespace); nothing else is
changed, no trimming and no lowercasing happens, and
`capitalizeName "john doe" = "John Doe"`. -/
theorem c5_capitalize_name (s : String) :
    (capitalizeName s).length = s.length
    ∧ (∀ i, i < s.data.length →
        (capitalizeName s).data.getD i ' ' =
          (if wordStartAt s.data i then jsToUpperChar (s.data.getD i ' ')
           else s.data.getD i ' '))
    ∧ capitalizeName "john doe" = "John Doe" := by
  refine ⟨capList_length false s.data, ?_, by decide⟩
  intro i hi
  have h := capList_getD s.data false i hi
  rw [show (capitalizeName s).data = capList false s.data from rfl, h]
  unfold wordStartAt
  cases hi0 : (i == 0) with
  | true => simp [hi0]
  | false => simp [hi0]

/-- Letters, the characters capitalization can change. -/
def isLetterChar (c : Char) : Bool := isLowerChar c || isUpperChar c

/-- Claim C5's own reading of `capitalizeName`, modelled from the claim's
words: uppercase exactly the first letter of every whitespace-delimited word
(a letter at the start of the string or right after whitespace), changing
nothing else. -/
def specCapWords : Bool → List Char → List Char
  | _, [] => []
  | atStart, c :: rest =>
    if isJsSpace c then c :: specCapWords true rest
    else (if atStart && isLetterChar c then jsToUpperChar c else c)
      :: specCapWords false rest

/-- The claim's capitalizer on strings. -/
def specCapitalizeName (name : String) : String :=
  String.mk (specCapWords true name.data)

/-- C5 (counterexample): on `"foo-bar"` the code uppercases the `b` after the
hyphen (`\b\w` fires after any non-word character), while the claim's
first-letter-of-each-whitespace-delimited-word reading leaves it lowercase;
the two results differ. -/
theorem c5_capitalize_counterexample :
    capitalizeName "foo-bar" = "Foo-Bar"
    ∧ specCapitalizeName "foo-bar" = "Foo-bar"
    ∧ capitalizeName "foo-bar" ≠ specCapitalizeName "foo-bar" := by decide

/-! ### Required-field validation -/

/-- C8: `validateRequired` returns false exactly on the two absent values and
the empty string; whitespace-only strings are not trimmed and count as
present. -/
theorem c8_validate_required :
    (∀ v : JsValue, validateRequired v = false ↔
      (v = JsValue.undef ∨ v = JsValue.nullv ∨ v = JsValue.str ""))
    ∧ validateRequired (JsValue.str "") = false
    ∧ validateRequired (JsValue.str "   ") = true := by
  refine ⟨?_, by decide, by decide⟩
  intro v
  cases v with
  | undef => simp [validateRequired]
  | nullv => simp [validateRequired]
  | str s =>
    by_cases hs : s = ""
    · subst hs
      simp [validateRequired]
    · simp [validateRequired, hs]

end FormUtils
